import Mathlib

/-!
# Verification of the boekhouder reconciliation-and-classification engine

Shallow embedding of `src/boekhouder/{data.py, importer.py, cmd.py}`.

Modelling conventions:
* `Decimal` money values are always quantized to two decimal places in the
  source (`quantize(DEC_2)`), so they are represented as integer hundredths
  (`Int`); numeric equality of `Decimal`s coincides with equality of the
  integer representations, and `Decimal(1)` (the `POS_1` membership unit)
  is `100`.
* Dates are represented as `Nat` (e.g. an ISO date encoded as `yyyymmdd`);
  only their order is used (`new_txns.sort(key=lambda txn: txn.date)`).
* Python `dict`s are insertion-ordered association lists; assignment to an
  existing key replaces the value in place (`dictInsert`).
* A regex matcher (`re2._Regexp`, `item.match(field)`) is modelled as an
  abstract boolean predicate on strings; an exact matcher (`str`) keeps its
  string.
* `repo.get_account` (`self.config["accounts"][iban]`) raises `KeyError` on
  a missing key; fallible handling is modelled with `Option`
  (`none` = the fatal lookup error).
* File-system concerns of `cmd_import` (the output-filename slot search,
  actual file writing, `--dry-run` printing) are external collaborators per
  the spec; the model stops at the two in-memory buckets `auto_entries` /
  `manual_entries` that are written to the `_auto` / `_manual` files.
-/

namespace Boekhouder

/-- `XlTransaction` from `data.py`: one bank-extract record, with the
defaults of the dataclass (amount `Decimal("0.00")` ↦ `0` hundredths). -/
structure XlTransaction where
  account : String := ""
  booking_date : Nat := 0
  value_date : Nat := 0
  operation_date : Nat := 0
  reference : String := ""
  description : String := ""
  amount : Int := 0
  currency : String := "EUR"
  counterparty_account : String := ""
  counterparty_name : String := ""
  message : String := ""
deriving Repr, DecidableEq

/-- One beancount `Posting` as built by the handlers: account path, units
(amount in hundredths, currency).  `cost`, `price` are always `None` and the
posting `meta` always `{}` in the source, so they are omitted. -/
structure Posting where
  account : String
  amount : Int
  currency : String
deriving Repr, DecidableEq

/-- The beancount `Transaction` fields the handlers populate.  The metadata
mapping built by `Handler.handle` is exactly `{"reference": ...}`, modelled
by the single field `meta_reference`.  `tags` is built as a (Python) set but
only ever holds at most `"membership"`; a list keeps the model executable.
`links` is always empty and omitted. -/
structure BcTransaction where
  date : Nat
  meta_reference : String
  flag : String
  payee : String
  narration : String
  tags : List String
  postings : List Posting
deriving Repr, DecidableEq

/-- The field-replacement map `self.replacements` (`yaml.get("replace", {})`)
fed to `dataclasses.replace(txn, **self.replacements)`: an optional override
per field of `XlTransaction`. -/
structure Replacements where
  account : Option String := none
  booking_date : Option Nat := none
  value_date : Option Nat := none
  operation_date : Option Nat := none
  reference : Option String := none
  description : Option String := none
  amount : Option Int := none
  currency : Option String := none
  counterparty_account : Option String := none
  counterparty_name : Option String := none
  message : Option String := none

/-- `dataclasses.replace(txn, **replacements)`: a copy of `txn` with every
field present in the map overridden. -/
def applyReplacements (r : Replacements) (txn : XlTransaction) : XlTransaction :=
  { account := r.account.getD txn.account
    booking_date := r.booking_date.getD txn.booking_date
    value_date := r.value_date.getD txn.value_date
    operation_date := r.operation_date.getD txn.operation_date
    reference := r.reference.getD txn.reference
    description := r.description.getD txn.description
    amount := r.amount.getD txn.amount
    currency := r.currency.getD txn.currency
    counterparty_account := r.counterparty_account.getD txn.counterparty_account
    counterparty_name := r.counterparty_name.getD txn.counterparty_name
    message := r.message.getD txn.message }

/-- The handler hierarchy of `importer.py`.  `default` is the base `Handler`
(also registered under the `None` key); `categorize` and `membership` are the
two named subclasses.  Each instance carries its configured replacement map;
`categorize` carries `yaml["category"]`, `membership` carries `yaml["member"]`
and `monthly_cost` (hundredths, default `Decimal("25.00")` ↦ `2500`). -/
inductive Handler where
  | default (replacements : Replacements)
  | categorize (replacements : Replacements) (category : String)
  | membership (replacements : Replacements) (member : String) (monthly_cost : Int)

/-- The configured replacement map of a handler instance. -/
def Handler.replacements : Handler → Replacements
  | .default r => r
  | .categorize r _ => r
  | .membership r _ _ => r

/-- `'?' if type(self) is Handler else '!'`: the confidence flag set in
`Handler.handle`.  Only the base (default/null) handler is exactly of type
`Handler`. -/
def Handler.flag : Handler → String
  | .default _ => "?"
  | .categorize _ _ => "!"
  | .membership _ _ _ => "!"

/-- `Handler.source_type`: `"Income" if txn.amount > 0 else "Expenses"`. -/
def source_type (txn : XlTransaction) : String :=
  if txn.amount > 0 then "Income" else "Expenses"

/-- `default_source`, resolved by dynamic dispatch: base handler returns
`"UnaccountedFunds"`, `Categorize` its configured category, `Membership` the
fixed `"Membership"`. -/
def Handler.default_source : Handler → XlTransaction → String
  | .default _, _ => "UnaccountedFunds"
  | .categorize _ c, _ => c
  | .membership _ _ _, _ => "Membership"

/-- `DEFAULT_HANDLER = Handler({})`: the base handler with an empty
replacement map. -/
def DEFAULT_HANDLER : Handler := .default {}

/-- The account registry and the reconciliation inputs of a `Repository`
run: `config["accounts"]`, the configured `config["filters"]` (added below),
`bc_txn_map` keys and `xl_txn_map` are what `cmd_import` reads.  Here only
the account registry, which `Handler.handle` needs. -/
structure Accounts where
  table : List (String × String)

/-- `Repository.get_account`: `self.config["accounts"][iban]`; a missing key
is the fatal `KeyError`, modelled as `none`. -/
def getAccount (acc : Accounts) (iban : String) : Option String :=
  acc.table.lookup iban

/-- The body of `Handler.handle` (the base implementation, shared by
`Categorize` through inheritance and invoked by `Membership` via `super()`):
metadata is built from the ORIGINAL record's reference, then the replacement
map is applied, then the two money postings are emitted. -/
def baseHandle (h : Handler) (acc : Accounts) (txn : XlTransaction) :
    Option BcTransaction :=
  match getAccount acc (applyReplacements h.replacements txn).account with
  | none => none
  | some acctPath => some
      { date := (applyReplacements h.replacements txn).booking_date
        -- `meta` is built from the record BEFORE `dataclasses.replace` runs
        meta_reference := txn.reference
        flag := h.flag
        payee := (applyReplacements h.replacements txn).counterparty_name
        narration := (applyReplacements h.replacements txn).message
        tags := []
        postings :=
          [ { account := acctPath
              amount := (applyReplacements h.replacements txn).amount
              currency := (applyReplacements h.replacements txn).currency }
          , { account := source_type (applyReplacements h.replacements txn) ++
                ":" ++ h.default_source (applyReplacements h.replacements txn)
              amount := -(applyReplacements h.replacements txn).amount
              currency := (applyReplacements h.replacements txn).currency } ] }

/-- `POS_1 = Decimal(1)` in hundredths. -/
def POS_1 : Int := 100

/-- `Handler.handle` with dynamic dispatch: the base handler and
`Categorize` use the base implementation; `Membership.handle` first checks
`self.monthly_cost != txn.amount` and on mismatch delegates to
`DEFAULT_HANDLER.handle` (so the membership instance's replacement map is
NOT applied there), otherwise extends the base result with the
`"membership"` tag and the two `MEMBERSHIP_MONTH` postings. -/
def Handler.handle (h : Handler) (acc : Accounts) (txn : XlTransaction) :
    Option BcTransaction :=
  match h with
  | .default _ => baseHandle h acc txn
  | .categorize _ _ => baseHandle h acc txn
  | .membership _ member cost =>
      if cost ≠ txn.amount then
        baseHandle DEFAULT_HANDLER acc txn
      else
        (baseHandle h acc txn).map (fun t =>
          { t with
            tags := t.tags ++ ["membership"]
            postings := t.postings ++
              [ { account := "Assets:Membership"
                  amount := POS_1
                  currency := "MEMBERSHIP_MONTH" }
              , { account := "Liabilities:Members:" ++ member
                  amount := -POS_1
                  currency := "MEMBERSHIP_MONTH" } ] })

/-- `StrFilter = Union[str, re2._Regexp]`: a single matcher is either an
exact string (`type(item) is str and item == field`) or a compiled pattern
(`item.match(field)`), the latter modelled as an abstract boolean predicate
on the field string. -/
inductive StrFilter where
  | exact (s : String)
  | pattern (p : String → Bool)

/-- Whether one matcher succeeds on a field value. -/
def StrFilter.matches : StrFilter → String → Bool
  | .exact s, field => s == field
  | .pattern p, field => p field

/-- `Filter._test1(field, pattern)`: an empty matcher list always passes;
otherwise the loop returns `True` as soon as one matcher succeeds, `False`
after exhausting the list. -/
def test1 (field : String) (pattern : List StrFilter) : Bool :=
  if pattern.length = 0 then true
  else pattern.any (fun item => item.matches field)

/-- A configured rule (`Filter`): the four per-field matcher lists plus the
handler bound via `Handler.HANDLERS[yaml.get("handler", None)](yaml)`. -/
structure Filter where
  name : List StrFilter
  kind : List StrFilter
  message : List StrFilter
  account : List StrFilter
  handler : Handler

/-- `Filter.test(txn)`: `all` of the four field checks — `message` against
`self.message`, `counterparty_account` against `self.account`,
`counterparty_name` against `self.name`, `description` against `self.kind`. -/
def Filter.test (f : Filter) (txn : XlTransaction) : Bool :=
  test1 txn.message f.message &&
  test1 txn.counterparty_account f.account &&
  test1 txn.counterparty_name f.name &&
  test1 txn.description f.kind

/-- The rule-selection loop of `cmd_import`: `for filter in filters: if
filter.test(txn): handler = filter.handler; break` with the `else:` arm
falling back to `DEFAULT_HANDLER`. -/
def selectHandler (filters : List Filter) (txn : XlTransaction) : Handler :=
  match filters.find? (fun f => f.test txn) with
  | some f => f.handler
  | none => DEFAULT_HANDLER

/-- Python-`dict` assignment on an insertion-ordered association list:
overwrite the value in place when the key exists, append otherwise. -/
def dictInsert (m : List (String × XlTransaction)) (k : String)
    (v : XlTransaction) : List (String × XlTransaction) :=
  match m with
  | [] => [(k, v)]
  | (k', v') :: rest =>
      if k' = k then (k', v) :: rest else (k', v') :: dictInsert rest k v

/-- One step of the `xl_txn_map` construction: `if txn.reference:
self.xl_txn_map[txn.reference] = txn` — only a non-empty reference is
indexed. -/
def loadStep (m : List (String × XlTransaction)) (txn : XlTransaction) :
    List (String × XlTransaction) :=
  if txn.reference ≠ "" then dictInsert m txn.reference txn else m

/-- The `xl_txn_map` construction of `Repository.load_extracts`, folding
`loadStep` over the concatenated extract records in sequence order: a later
duplicate reference overwrites an earlier one in the map. -/
def loadExtractsMap (txns : List XlTransaction) :
    List (String × XlTransaction) :=
  txns.foldl loadStep []

/-- `new_txn_ids = xl_txns - bc_txns` (set difference of the two maps' key
sets).  Python set iteration order is unspecified; the model iterates the
new identifiers in the map's insertion order. -/
def newTxnIds (xlMap : List (String × XlTransaction)) (bcIds : List String) :
    List String :=
  (xlMap.map Prod.fst).filter (fun i => !(bcIds.contains i))

/-- The classify loop of `cmd_import`: for each new identifier look the
record up in `xl_txn_map` (`KeyError` cannot occur but is modelled as
`none`), skip it when its reference was already `processed`, otherwise
select a handler via the filter list and `handle` the record.  A `none`
from `handle` is the fatal account-lookup error aborting the run. -/
def classifyLoop (acc : Accounts) (filters : List Filter)
    (xlMap : List (String × XlTransaction)) :
    List String → List String → Option (List BcTransaction)
  | [], _ => some []
  | i :: rest, processed =>
      match xlMap.lookup i with
      | none => none
      | some txn =>
          if processed.contains txn.reference then
            classifyLoop acc filters xlMap rest processed
          else
            match (selectHandler filters txn).handle acc txn with
            | none => none
            | some t =>
                (classifyLoop acc filters xlMap rest
                  (txn.reference :: processed)).map (t :: ·)

/-- `new_txns.sort(key=lambda txn: txn.date)`: sort ascending by date. -/
def sortByDate (l : List BcTransaction) : List BcTransaction :=
  l.insertionSort (fun a b => a.date ≤ b.date)

/-- The observable outcome of an `import` run: `noNew` is the early
`click.echo("No new transactions found"); return` path (no transactions
produced, no files written); `fatalLookup` the uncaught `KeyError` from the
account registry; `produced auto manual` the two buckets `auto_entries`
(written to the `_auto` file) and `manual_entries` (written to the
`_manual` file). -/
inductive ImportResult where
  | noNew
  | fatalLookup
  | produced (auto : List BcTransaction) (manual : List BcTransaction)
deriving Repr, DecidableEq

/-- The reconciliation inputs `cmd_import` reads from the `Repository`:
the account registry, the configured filter list, the ledger reference set
(`bc_txn_map` keys) and the extract map (`xl_txn_map`). -/
structure Repo where
  accounts : Accounts
  filters : List Filter
  bcIds : List String
  xlMap : List (String × XlTransaction)

/-- `cmd_import` (the reconciliation run after loading, with the orphan
warning — a read-only report — elided): diff, early return on no new ids,
classify, sort by date, and partition into `auto_entries = [txn for txn in
new_txns if txn.flag == "!"]` and `manual_entries = [... if txn.flag !=
"!"]`. -/
def cmdImport (repo : Repo) : ImportResult :=
  let newIds := newTxnIds repo.xlMap repo.bcIds
  if newIds.isEmpty then .noNew
  else
    match classifyLoop repo.accounts repo.filters repo.xlMap newIds [] with
    | none => .fatalLookup
    | some txns =>
        let sorted := sortByDate txns
        .produced (sorted.filter (fun t => t.flag == "!"))
          (sorted.filter (fun t => t.flag != "!"))

/-! ## Specification-side definitions (for refinement statements) -/

/-- Spec wording of a single field check: the matcher list is empty, or at
least one matcher (exact-string equality or pattern match) succeeds on the
record's field. -/
def fieldOk (pattern : List StrFilter) (field : String) : Prop :=
  pattern = [] ∨ ∃ item ∈ pattern, item.matches field = true

/-- The last record in extract sequence order carrying reference `r`
(`none` when no record does): the record actually held by a last-wins map. -/
def lastWithRef (r : String) : List XlTransaction → Option XlTransaction
  | [] => none
  | txn :: rest =>
      match lastWithRef r rest with
      | some t => some t
      | none => if txn.reference = r then some txn else none

/-- Sum of the posting amounts of one currency within a posting list. -/
def sumCurrency (postings : List Posting) (c : String) : Int :=
  ((postings.filter (fun p => p.currency == c)).map (fun p => p.amount)).sum

/-! ## Concrete example inputs for witnesses and counterexamples -/

/-- A one-entry account registry. -/
def exAcc : Accounts := ⟨[("BE01", "Assets:Bank:Checking")]⟩

/-- Extract record with reference `"A"`, amount 25.00. -/
def exTxnA1 : XlTransaction :=
  { reference := "A", account := "BE01", amount := 2500,
    booking_date := 20240102, message := "first", counterparty_name := "Alice" }

/-- A second extract record with the same reference `"A"`, amount 3.00. -/
def exTxnA2 : XlTransaction :=
  { reference := "A", account := "BE01", amount := 300,
    booking_date := 20240101, message := "second", counterparty_name := "Bob" }

/-- Extract record with reference `"B"`, a negative amount, payee Carol. -/
def exTxnB : XlTransaction :=
  { reference := "B", account := "BE01", amount := -500,
    booking_date := 20240103, message := "b-msg", counterparty_name := "Carol" }

/-- Extract record with an empty reference. -/
def exTxnEmpty : XlTransaction :=
  { reference := "", account := "BE01", amount := 700 }

/-- A rule matching Carol by exact counterparty name, bound to a
`categorize` handler. -/
def exFilterCarol : Filter :=
  { name := [.exact "Carol"], kind := [], message := [], account := [],
    handler := .categorize {} "Donations" }

/-- Repo: records A1 and B, Carol rule, empty ledger. -/
def exRepoC1 : Repo :=
  { accounts := exAcc, filters := [exFilterCarol], bcIds := [],
    xlMap := loadExtractsMap [exTxnA1, exTxnB] }

/-- Output of the default handler on `exTxnA1`. -/
def exOutA1 : BcTransaction :=
  { date := 20240102, meta_reference := "A", flag := "?", payee := "Alice",
    narration := "first", tags := [],
    postings := [⟨"Assets:Bank:Checking", 2500, "EUR"⟩,
                 ⟨"Income:UnaccountedFunds", -2500, "EUR"⟩] }

/-- Output of the Carol `categorize` handler on `exTxnB`. -/
def exOutB : BcTransaction :=
  { date := 20240103, meta_reference := "B", flag := "!", payee := "Carol",
    narration := "b-msg", tags := [],
    postings := [⟨"Assets:Bank:Checking", -500, "EUR"⟩,
                 ⟨"Expenses:Donations", 500, "EUR"⟩] }

/-- Output of the default handler on `exTxnA2`. -/
def exOutA2 : BcTransaction :=
  { date := 20240101, meta_reference := "A", flag := "?", payee := "Bob",
    narration := "second", tags := [],
    postings := [⟨"Assets:Bank:Checking", 300, "EUR"⟩,
                 ⟨"Income:UnaccountedFunds", -300, "EUR"⟩] }

/-- Repo whose extracts contain two records with the same reference `"A"`,
no rules, empty ledger. -/
def exRepoC2 : Repo :=
  { accounts := exAcc, filters := [], bcIds := [],
    xlMap := loadExtractsMap [exTxnA1, exTxnA2] }

/-- Replacement map overriding the reference and the counterparty name. -/
def exReplC7 : Replacements :=
  { reference := some "X", counterparty_name := some "Override" }

/-- Extract record with reference `"R"`, original counterparty name. -/
def exTxnR : XlTransaction :=
  { reference := "R", account := "BE01", amount := 100,
    counterparty_name := "Orig" }

/-- Output of the default handler configured with `exReplC7` on `exTxnR`. -/
def exOutC7 : BcTransaction :=
  { date := 0, meta_reference := "R", flag := "?", payee := "Override",
    narration := "", tags := [],
    postings := [⟨"Assets:Bank:Checking", 100, "EUR"⟩,
                 ⟨"Income:UnaccountedFunds", -100, "EUR"⟩] }

/-- Output of a Membership handler (member `"alice"`, fee 25.00) on record
A1, whose amount matches the fee exactly. -/
def exOutMember : BcTransaction :=
  { date := 20240102, meta_reference := "A", flag := "!", payee := "Alice",
    narration := "first", tags := ["membership"],
    postings := [⟨"Assets:Bank:Checking", 2500, "EUR"⟩,
                 ⟨"Income:Membership", -2500, "EUR"⟩,
                 ⟨"Assets:Membership", 100, "MEMBERSHIP_MONTH"⟩,
                 ⟨"Liabilities:Members:alice", -100, "MEMBERSHIP_MONTH"⟩] }

/-- Repo where every extract reference already appears in the ledger. -/
def exRepoC8 : Repo :=
  { accounts := exAcc, filters := [], bcIds := ["A"],
    xlMap := loadExtractsMap [exTxnA1] }

/-- Repo whose extracts contain an empty-reference record plus record A1,
no rules, empty ledger. -/
def exRepoC9 : Repo :=
  { accounts := exAcc, filters := [], bcIds := [],
    xlMap := loadExtractsMap [exTxnEmpty, exTxnA1] }

/-- A rule that matches nothing (counterparty name never equals). -/
def exRuleNever : Filter :=
  { name := [.exact "Nobody"], kind := [], message := [], account := [],
    handler := .categorize {} "H1" }

/-- A rule that matches everything, bound to handler H2. -/
def exRuleAlways2 : Filter :=
  { name := [], kind := [], message := [], account := [],
    handler := .categorize {} "H2" }

/-- A second always-matching rule, bound to handler H3. -/
def exRuleAlways3 : Filter :=
  { name := [], kind := [], message := [], account := [],
    handler := .categorize {} "H3" }

/-! ## Helper lemmas -/

/-- Characterization of a successful `baseHandle`: the account lookup
succeeded on the replaced record and the result is the literal transaction
record built from it (metadata from the original reference). -/
theorem baseHandle_some (h : Handler) (acc : Accounts) (txn : XlTransaction)
    (t : BcTransaction) (he : baseHandle h acc txn = some t) :
    ∃ acctPath,
      getAccount acc (applyReplacements h.replacements txn).account = some acctPath ∧
      t = { date := (applyReplacements h.replacements txn).booking_date
            meta_reference := txn.reference
            flag := h.flag
            payee := (applyReplacements h.replacements txn).counterparty_name
            narration := (applyReplacements h.replacements txn).message
            tags := []
            postings :=
              [ ⟨acctPath, (applyReplacements h.replacements txn).amount,
                  (applyReplacements h.replacements txn).currency⟩
              , ⟨source_type (applyReplacements h.replacements txn) ++ ":" ++
                  h.default_source (applyReplacements h.replacements txn),
                  -(applyReplacements h.replacements txn).amount,
                  (applyReplacements h.replacements txn).currency⟩ ] } := by
  unfold baseHandle at he
  split at he
  · exact absurd he (by simp)
  · next a hg => exact ⟨a, hg, (Option.some.inj he).symm⟩

/-- Every successful `handle` keeps the ORIGINAL record's reference in the
transaction metadata, for every handler kind. -/
theorem handle_meta (h : Handler) (acc : Accounts) (txn : XlTransaction)
    (t : BcTransaction) (he : h.handle acc txn = some t) :
    t.meta_reference = txn.reference := by
  cases h with
  | default r =>
      obtain ⟨a, -, rfl⟩ := baseHandle_some _ _ _ _ he; rfl
  | categorize r c =>
      obtain ⟨a, -, rfl⟩ := baseHandle_some _ _ _ _ he; rfl
  | membership r member cost =>
      simp only [Handler.handle] at he
      by_cases hc : cost ≠ txn.amount
      · rw [if_pos hc] at he
        obtain ⟨a, -, rfl⟩ := baseHandle_some _ _ _ _ he; rfl
      · rw [if_neg hc] at he
        obtain ⟨t0, h0, rfl⟩ := Option.map_eq_some'.mp he
        obtain ⟨a, -, rfl⟩ := baseHandle_some _ _ _ _ h0
        rfl

/-- Looking up the inserted key finds the new value. -/
theorem dictInsert_lookup_self (m : List (String × XlTransaction))
    (k : String) (v : XlTransaction) :
    (dictInsert m k v).lookup k = some v := by
  induction m with
  | nil => simp [dictInsert, List.lookup]
  | cons p rest ih =>
      obtain ⟨k1, v1⟩ := p
      by_cases h : k1 = k
      · subst h; simp [dictInsert, List.lookup]
      · have hb : (k == k1) = false := beq_eq_false_iff_ne.mpr (Ne.symm h)
        simp only [dictInsert, if_neg h, List.lookup, hb]
        exact ih

/-- Looking up any other key is unchanged by the insertion. -/
theorem dictInsert_lookup_ne (m : List (String × XlTransaction))
    (k : String) (v : XlTransaction) (j : String) (hne : j ≠ k) :
    (dictInsert m k v).lookup j = m.lookup j := by
  induction m with
  | nil => simp [dictInsert, List.lookup, beq_eq_false_iff_ne.mpr hne]
  | cons p rest ih =>
      obtain ⟨k1, v1⟩ := p
      by_cases h : k1 = k
      · subst h
        simp only [dictInsert, if_pos rfl, List.lookup,
          beq_eq_false_iff_ne.mpr hne]
      · simp only [dictInsert, if_neg h, List.lookup]
        by_cases hj : j = k1
        · simp only [beq_iff_eq.mpr hj]
        · simp only [beq_eq_false_iff_ne.mpr hj]
          exact ih

/-- The key list after an insertion: unchanged when the key was present,
extended by the key at the back otherwise. -/
theorem dictInsert_keys (m : List (String × XlTransaction)) (k : String)
    (v : XlTransaction) :
    (dictInsert m k v).map Prod.fst =
      if k ∈ m.map Prod.fst then m.map Prod.fst
      else m.map Prod.fst ++ [k] := by
  induction m with
  | nil => simp [dictInsert]
  | cons p rest ih =>
      obtain ⟨k1, v1⟩ := p
      by_cases h : k1 = k
      · subst h; simp [dictInsert]
      · simp only [dictInsert, if_neg h, List.map_cons, ih]
        by_cases hk : k ∈ rest.map Prod.fst
        · rw [if_pos hk, if_pos (by simp [hk])]
        · rw [if_neg hk, if_neg (by simp [hk, Ne.symm h]), List.cons_append]

/-- Insertion preserves distinctness of the keys. -/
theorem dictInsert_keys_nodup (m : List (String × XlTransaction))
    (k : String) (v : XlTransaction)
    (h : (m.map Prod.fst).Nodup) :
    ((dictInsert m k v).map Prod.fst).Nodup := by
  rw [dictInsert_keys]
  by_cases hk : k ∈ m.map Prod.fst
  · rwa [if_pos hk]
  · rw [if_neg hk, List.nodup_append]
    exact ⟨h, List.nodup_singleton k, by simp [List.disjoint_singleton, hk]⟩

/-- The fold of `loadStep` keeps the key list distinct. -/
theorem foldl_loadStep_keys_nodup (txns : List XlTransaction) :
    ∀ m : List (String × XlTransaction), (m.map Prod.fst).Nodup →
      ((txns.foldl loadStep m).map Prod.fst).Nodup := by
  induction txns with
  | nil => intro m hm; simpa using hm
  | cons txn rest ih =>
      intro m hm
      rw [List.foldl_cons]
      refine ih _ ?_
      unfold loadStep
      split
      · exact dictInsert_keys_nodup _ _ _ hm
      · exact hm

/-- `xl_txn_map` has pairwise-distinct keys. -/
theorem loadExtractsMap_keys_nodup (txns : List XlTransaction) :
    ((loadExtractsMap txns).map Prod.fst).Nodup :=
  foldl_loadStep_keys_nodup txns [] (by simp)

/-- The fold of `loadStep` preserves the invariant that every stored record
carries its key as reference and that no key is empty. -/
theorem foldl_loadStep_lookup_ref (txns : List XlTransaction) :
    ∀ m : List (String × XlTransaction),
      (∀ k v, m.lookup k = some v → v.reference = k ∧ k ≠ "") →
      ∀ k v, (txns.foldl loadStep m).lookup k = some v →
        v.reference = k ∧ k ≠ "" := by
  induction txns with
  | nil => intro m hm; simpa using hm
  | cons txn rest ih =>
      intro m hm
      rw [List.foldl_cons]
      refine ih _ ?_
      intro k v hl
      unfold loadStep at hl
      split at hl
      · next hr =>
          by_cases hk : k = txn.reference
          · subst hk
            rw [dictInsert_lookup_self] at hl
            exact ⟨(Option.some.inj hl).symm ▸ rfl, hr⟩
          · rw [dictInsert_lookup_ne _ _ _ _ hk] at hl
            exact hm k v hl
      · exact hm k v hl

/-- Every record stored in `xl_txn_map` carries its key as its reference,
and no key is the empty string. -/
theorem loadExtractsMap_lookup_ref (txns : List XlTransaction)
    (k : String) (v : XlTransaction)
    (hl : (loadExtractsMap txns).lookup k = some v) :
    v.reference = k ∧ k ≠ "" :=
  foldl_loadStep_lookup_ref txns [] (by simp [List.lookup]) k v hl

/-- The empty reference is never indexed in `xl_txn_map`. -/
theorem loadExtractsMap_lookup_empty (txns : List XlTransaction) :
    (loadExtractsMap txns).lookup "" = none := by
  cases hl : (loadExtractsMap txns).lookup "" with
  | none => rfl
  | some v => exact absurd rfl (loadExtractsMap_lookup_ref txns "" v hl).2

/-- The fold of `loadStep` realizes last-wins deduplication: a non-empty
reference looks up to the last extract record carrying it (falling back to
the accumulator when none does). -/
theorem foldl_loadStep_lookup_last (r : String) (hr : r ≠ "")
    (txns : List XlTransaction) :
    ∀ m : List (String × XlTransaction),
      (txns.foldl loadStep m).lookup r =
        match lastWithRef r txns with
        | some t => some t
        | none => m.lookup r := by
  induction txns with
  | nil => intro m; simp [lastWithRef]
  | cons txn rest ih =>
      intro m
      rw [List.foldl_cons]
      rw [ih (loadStep m txn)]
      cases hlast : lastWithRef r rest with
      | some t => simp [lastWithRef, hlast]
      | none =>
          simp only [lastWithRef, hlast]
          unfold loadStep
          by_cases href : txn.reference = r
          · rw [if_pos href, if_pos (href ▸ hr)]
            rw [href, dictInsert_lookup_self]
          · rw [if_neg href]
            split
            · exact dictInsert_lookup_ne _ _ _ _ (fun h => href h.symm)
            · rfl

/-- `xl_txn_map` lookup of a non-empty reference is exactly the LAST extract
record (in sequence order) carrying that reference. -/
theorem loadExtractsMap_lookup_last (txns : List XlTransaction)
    (r : String) (hr : r ≠ "") :
    (loadExtractsMap txns).lookup r = lastWithRef r txns := by
  rw [loadExtractsMap, foldl_loadStep_lookup_last r hr txns []]
  cases lastWithRef r txns <;> simp [List.lookup]

/-- A key occurring in the key list of an association list has a value. -/
theorem lookup_isSome_of_mem_keys (m : List (String × XlTransaction))
    (k : String) (hk : k ∈ m.map Prod.fst) :
    ∃ v, m.lookup k = some v := by
  induction m with
  | nil => simp at hk
  | cons p rest ih =>
      obtain ⟨k1, v1⟩ := p
      by_cases h : k = k1
      · exact ⟨v1, by simp [List.lookup, beq_iff_eq.mpr h]⟩
      · simp only [List.map_cons, List.mem_cons] at hk
        obtain ⟨v, hv⟩ := ih (hk.resolve_left h)
        exact ⟨v, by simp [List.lookup, beq_eq_false_iff_ne.mpr h, hv]⟩

/-- The classify loop, on distinct identifiers each of which looks up to
a record carrying that identifier as reference: the produced transactions,
in order, carry exactly those identifiers in their metadata, and each is
the output of the first-matching rule's handler (or the default handler)
on the looked-up record. -/
theorem classifyLoop_spec (acc : Accounts) (filters : List Filter)
    (xlMap : List (String × XlTransaction)) :
    ∀ (ids processed : List String) (txns : List BcTransaction),
      ids.Nodup →
      (∀ i ∈ ids, ∃ txn, xlMap.lookup i = some txn ∧ txn.reference = i) →
      (∀ i ∈ ids, i ∉ processed) →
      classifyLoop acc filters xlMap ids processed = some txns →
      txns.map (fun t => t.meta_reference) = ids ∧
      ∀ t ∈ txns, ∃ txn, xlMap.lookup t.meta_reference = some txn ∧
        (selectHandler filters txn).handle acc txn = some t := by
  intro ids
  induction ids with
  | nil =>
      intro processed txns _ _ _ he
      simp only [classifyLoop] at he
      cases Option.some.inj he
      exact ⟨rfl, by simp⟩
  | cons i rest ih =>
      intro processed txns hnd hlook hproc he
      obtain ⟨txn, hlk, href⟩ := hlook i (by simp)
      simp only [classifyLoop, hlk] at he
      have hc : processed.contains txn.reference = false := by
        rw [href]
        simp [hproc i (by simp)]
      rw [hc] at he
      simp only [Bool.false_eq_true, if_false] at he
      cases hh : (selectHandler filters txn).handle acc txn with
      | none => rw [hh] at he; exact absurd he (by simp)
      | some t =>
          rw [hh] at he
          simp only [] at he
          obtain ⟨txns1, he1, rfl⟩ := Option.map_eq_some'.mp he
          have hnd1 : rest.Nodup := (List.nodup_cons.mp hnd).2
          have hi : i ∉ rest := (List.nodup_cons.mp hnd).1
          have hlook1 : ∀ j ∈ rest, ∃ txn1,
              xlMap.lookup j = some txn1 ∧ txn1.reference = j :=
            fun j hj => hlook j (by simp [hj])
          have hproc1 : ∀ j ∈ rest, j ∉ txn.reference :: processed := by
            intro j hj
            simp only [List.mem_cons, href]
            rintro (rfl | hmem)
            · exact hi hj
            · exact hproc j (by simp [hj]) hmem
          obtain ⟨hmap, hall⟩ := ih (txn.reference :: processed) txns1
            hnd1 hlook1 hproc1 he1
          have hmeta : t.meta_reference = i :=
            (handle_meta _ _ _ _ hh).trans href
          refine ⟨by simp [hmap, hmeta], ?_⟩
          intro u hu
          rcases List.mem_cons.mp hu with rfl | hu1
          · exact ⟨txn, hmeta ▸ hlk, hh⟩
          · exact hall u hu1

/-- Decomposition of a successful `cmd_import` run: the classify loop
succeeded and the two buckets are the flag-partition of the date-sorted
transaction list. -/
theorem cmdImport_produced (repo : Repo) (A M : List BcTransaction)
    (hp : cmdImport repo = .produced A M) :
    ∃ txns,
      classifyLoop repo.accounts repo.filters repo.xlMap
        (newTxnIds repo.xlMap repo.bcIds) [] = some txns ∧
      A = (sortByDate txns).filter (fun t => t.flag == "!") ∧
      M = (sortByDate txns).filter (fun t => t.flag != "!") := by
  simp only [cmdImport] at hp
  split at hp
  · exact absurd hp (by simp)
  · split at hp
    · exact absurd hp (by simp)
    · next txns hcl =>
        refine ⟨txns, hcl, ?_, ?_⟩
        · exact (ImportResult.produced.injEq _ _ _ _ ▸ hp).1.symm
        · exact (ImportResult.produced.injEq _ _ _ _ ▸ hp).2.symm

/-- The new-identifier list inherits distinctness from the map keys. -/
theorem newTxnIds_nodup (xlMap : List (String × XlTransaction))
    (bcIds : List String)
    (h : (xlMap.map Prod.fst).Nodup) :
    (newTxnIds xlMap bcIds).Nodup :=
  h.filter _

/-- A new identifier is a map key. -/
theorem newTxnIds_subset_keys (xlMap : List (String × XlTransaction))
    (bcIds : List String) (i : String) (hi : i ∈ newTxnIds xlMap bcIds) :
    i ∈ xlMap.map Prod.fst :=
  List.mem_of_mem_filter hi

/-- The two output buckets together are a permutation of the classify
loop's output (sorting and flag-partitioning reorder but never add, drop or
alter transactions). -/
theorem buckets_perm_txns (repo : Repo) (A M : List BcTransaction)
    (txns : List BcTransaction) (hp : cmdImport repo = .produced A M)
    (hcl : classifyLoop repo.accounts repo.filters repo.xlMap
      (newTxnIds repo.xlMap repo.bcIds) [] = some txns) :
    (A ++ M).Perm txns := by
  obtain ⟨txns1, hcl1, hA, hM⟩ := cmdImport_produced repo A M hp
  rw [hcl] at hcl1
  cases Option.some.inj hcl1
  subst hA hM
  have h1 : ((sortByDate txns).filter (fun t => t.flag == "!") ++
      (sortByDate txns).filter (fun t => t.flag != "!")).Perm
      (sortByDate txns) := by
    have h2 := List.filter_append_perm (fun t : BcTransaction => t.flag == "!")
      (sortByDate txns)
    simpa [bne] using h2
  exact h1.trans (List.perm_insertionSort _ _)

/-- Master lemma about a successful run over a loaded extract map: the
produced transactions' metadata references are a permutation of the
new-identifier set, are pairwise distinct, and each produced transaction is
the handler output of the record its reference looks up to. -/
theorem produced_refs (repo : Repo) (txns0 : List XlTransaction)
    (hx : repo.xlMap = loadExtractsMap txns0)
    (A M : List BcTransaction) (hp : cmdImport repo = .produced A M) :
    ((A ++ M).map (fun t => t.meta_reference)).Perm
      (newTxnIds repo.xlMap repo.bcIds) ∧
    ((A ++ M).map (fun t => t.meta_reference)).Nodup ∧
    ∀ t ∈ A ++ M, ∃ txn, repo.xlMap.lookup t.meta_reference = some txn ∧
      (selectHandler repo.filters txn).handle repo.accounts txn = some t := by
  obtain ⟨txns, hcl, hA, hM⟩ := cmdImport_produced repo A M hp
  have hkeys : (repo.xlMap.map Prod.fst).Nodup :=
    hx ▸ loadExtractsMap_keys_nodup txns0
  have hidnd : (newTxnIds repo.xlMap repo.bcIds).Nodup :=
    newTxnIds_nodup _ _ hkeys
  have hlook : ∀ i ∈ newTxnIds repo.xlMap repo.bcIds,
      ∃ txn, repo.xlMap.lookup i = some txn ∧ txn.reference = i := by
    intro i hi
    obtain ⟨v, hv⟩ :=
      lookup_isSome_of_mem_keys _ _ (newTxnIds_subset_keys _ _ _ hi)
    exact ⟨v, hv, (loadExtractsMap_lookup_ref txns0 i v (hx ▸ hv)).1⟩
  obtain ⟨hmap, hall⟩ := classifyLoop_spec repo.accounts repo.filters
    repo.xlMap _ [] txns hidnd hlook (by simp) hcl
  have hperm : (A ++ M).Perm txns :=
    buckets_perm_txns repo A M txns hp hcl
  have hmperm : ((A ++ M).map (fun t => t.meta_reference)).Perm
      (newTxnIds repo.xlMap repo.bcIds) := by
    have := hperm.map (fun t => t.meta_reference)
    rwa [hmap] at this
  refine ⟨hmperm, hmperm.nodup_iff.mpr hidnd, ?_⟩
  intro t ht
  exact hall t (hperm.mem_iff.mp ht)

/-- A list whose mapped references are distinct has at most one element
with any given reference. -/
theorem length_filter_ref_le_one (l : List BcTransaction) (r : String)
    (h : (l.map (fun t => t.meta_reference)).Nodup) :
    (l.filter (fun t => t.meta_reference == r)).length ≤ 1 := by
  induction l with
  | nil => simp
  | cons t rest ih =>
      simp only [List.map_cons, List.nodup_cons] at h
      by_cases hr : t.meta_reference == r
      · have hrest : rest.filter (fun u => u.meta_reference == r) = [] := by
          rw [List.filter_eq_nil_iff]
          intro u hu hur
          refine h.1 ?_
          have h1 : t.meta_reference = r := by simpa using hr
          have h2 : u.meta_reference = r := by simpa using hur
          rw [h1, ← h2]
          exact List.mem_map_of_mem _ hu
        simp [List.filter_cons, hr, hrest]
      · simp only [List.filter_cons, hr, if_false, Bool.false_eq_true]
        exact ih h.2

/-! ## Claim theorems -/

/-- C4: for every rule and extract record, the rule's test returns true iff
all four field checks (counterparty name, description/kind, message,
counterparty account) pass, where a field check passes iff its matcher list
is empty or at least one matcher (exact string or pattern) succeeds on the
record's field. -/
theorem rule_test_iff_all_fields (f : Filter) (txn : XlTransaction) :
    f.test txn = true ↔
      (fieldOk f.name txn.counterparty_name ∧
       fieldOk f.kind txn.description ∧
       fieldOk f.message txn.message ∧
       fieldOk f.account txn.counterparty_account) := by
  have key : ∀ (pattern : List StrFilter) (field : String),
      test1 field pattern = true ↔ fieldOk pattern field := by
    intro pattern field
    cases pattern with
    | nil => simp [test1, fieldOk]
    | cons a l => simp [test1, fieldOk, List.any_eq_true]
  simp only [Filter.test, Bool.and_eq_true, key]
  tauto

/-- C5: for every configured rule list and record, the handler used is the
one bound to the first rule (in list order) whose test returns true; with no
matching rule the built-in default handler is used and any transaction it
produces carries the provisional flag. -/
theorem first_match_selects (filters : List Filter) (txn : XlTransaction) :
    (∀ i (hi : i < filters.length),
        (filters.get ⟨i, hi⟩).test txn = true →
        (∀ g ∈ filters.take i, g.test txn = false) →
        selectHandler filters txn = (filters.get ⟨i, hi⟩).handler) ∧
    ((∀ f ∈ filters, f.test txn = false) →
        selectHandler filters txn = DEFAULT_HANDLER ∧
        ∀ acc t, DEFAULT_HANDLER.handle acc txn = some t → t.flag = "?") := by
  constructor
  · intro i
    induction filters generalizing i with
    | nil => intro hi; exact absurd hi (by simp)
    | cons f rest ih =>
        intro hi htest hprev
        cases i with
        | zero =>
            have hf : f.test txn = true := htest
            have hpos : List.find? (fun g => g.test txn) (f :: rest) = some f :=
              List.find?_cons_of_pos _ (by simpa using hf)
            simp [selectHandler, hpos]
        | succ n =>
            have hf : f.test txn = false :=
              hprev f (by simp [List.take_succ_cons])
            have hfind : List.find? (fun g => g.test txn) (f :: rest) =
                List.find? (fun g => g.test txn) rest :=
              List.find?_cons_of_neg _ (by simp [hf])
            have hi1 : n < rest.length := by simpa using hi
            have hrec := ih n hi1 htest
              (fun g hg => hprev g (by simp [List.take_succ_cons, hg]))
            simp only [selectHandler, hfind] at hrec ⊢
            exact hrec
  · intro hnone
    have hfind : filters.find? (fun g => g.test txn) = none :=
      List.find?_eq_none.mpr (fun x hx => by simp [hnone x hx])
    refine ⟨by simp [selectHandler, hfind], ?_⟩
    intro acc t he
    obtain ⟨a, -, rfl⟩ := baseHandle_some _ _ _ _ he
    rfl

/-- C5 witness: rules (never-matching, always-matching H2, always-matching
H3) — a record is handled by the first matching rule's handler H2. -/
theorem first_match_selects_witness :
    selectHandler [exRuleNever, exRuleAlways2, exRuleAlways3] exTxnB =
      exRuleAlways2.handler :=
  (first_match_selects [exRuleNever, exRuleAlways2, exRuleAlways3] exTxnB).1
    1 (by simp) (by decide)
    (fun g hg => by
      simp at hg
      subst hg
      decide)

/-- Per-currency sum of a posting list splits over append. -/
theorem sumCurrency_append (l1 l2 : List Posting) (c : String) :
    sumCurrency (l1 ++ l2) c = sumCurrency l1 c + sumCurrency l2 c := by
  simp [sumCurrency, List.filter_append]

/-- A pair of postings in one currency with opposite amounts sums to zero in
every currency. -/
theorem sumCurrency_pair (a1 a2 : String) (x : Int) (cur c : String) :
    sumCurrency [⟨a1, x, cur⟩, ⟨a2, -x, cur⟩] c = 0 := by
  by_cases hc : (cur == c) = true <;>
    simp [sumCurrency, List.filter_cons, hc]

/-- Two balanced pairs of postings (each pair in one currency) sum to zero
in every currency. -/
theorem sumCurrency_two_pairs (a1 a2 a3 a4 : String) (x y : Int)
    (cur1 cur2 c : String) :
    sumCurrency [⟨a1, x, cur1⟩, ⟨a2, -x, cur1⟩,
                 ⟨a3, y, cur2⟩, ⟨a4, -y, cur2⟩] c = 0 := by
  by_cases hc1 : (cur1 == c) = true <;>
    by_cases hc2 : (cur2 == c) = true <;>
      simp [sumCurrency, List.filter_cons, hc1, hc2]

/-- C6: every transaction produced by any handler (default, Categorize or
Membership, on any record) has posting amounts summing to zero in every
currency. -/
theorem handler_postings_balance (h : Handler) (acc : Accounts)
    (txn : XlTransaction) (t : BcTransaction)
    (he : h.handle acc txn = some t) (c : String) :
    sumCurrency t.postings c = 0 := by
  have base : ∀ (h1 : Handler) (t1 : BcTransaction),
      baseHandle h1 acc txn = some t1 → sumCurrency t1.postings c = 0 := by
    intro h1 t1 h1e
    obtain ⟨a, -, rfl⟩ := baseHandle_some _ _ _ _ h1e
    exact sumCurrency_pair _ _ _ _ c
  cases h with
  | default r => exact base _ _ he
  | categorize r cat => exact base _ _ he
  | membership r member cost =>
      simp only [Handler.handle] at he
      by_cases hcost : cost ≠ txn.amount
      · rw [if_pos hcost] at he
        exact base _ _ he
      · rw [if_neg hcost] at he
        obtain ⟨t0, h0, rfl⟩ := Option.map_eq_some'.mp he
        obtain ⟨a, -, rfl⟩ := baseHandle_some _ _ _ _ h0
        exact sumCurrency_two_pairs _ _ _ _ _ _ _ _ c

/-- C6 witness: the default handler's output on record A1 balances in EUR. -/
theorem handler_postings_balance_witness :
    sumCurrency exOutA1.postings "EUR" = 0 :=
  handler_postings_balance DEFAULT_HANDLER exAcc exTxnA1 exOutA1 rfl "EUR"

/-- C8: with an empty set of new identifiers (every extract reference
already in the ledger) the run takes the early informational
"No new transactions found" return: no transaction is produced and no
output file is written. -/
theorem no_new_ids_noNew (repo : Repo)
    (h : newTxnIds repo.xlMap repo.bcIds = []) :
    cmdImport repo = .noNew := by
  simp [cmdImport, h]

/-- C8 witness: a repo whose single extract reference is already ledgered. -/
theorem no_new_ids_noNew_witness :
    newTxnIds exRepoC8.xlMap exRepoC8.bcIds = [] ∧
    cmdImport exRepoC8 = .noNew :=
  ⟨rfl, no_new_ids_noNew exRepoC8 rfl⟩

/-- C3: a Membership-configured handler on a record whose amount equals the
configured monthly fee exactly produces the two standard money postings plus
the +1/−1 MEMBERSHIP_MONTH postings (4 in total) and the tag "membership";
on any other amount it delegates entirely to the default handler, yielding
2 postings and no tag. -/
theorem membership_exact_match (repl : Replacements) (member : String)
    (cost : Int) (acc : Accounts) (txn : XlTransaction) :
    (cost = txn.amount →
      ∀ t, (Handler.membership repl member cost).handle acc txn = some t →
        ∃ t0, baseHandle (Handler.membership repl member cost) acc txn = some t0 ∧
          t0.postings.length = 2 ∧
          t.postings = t0.postings ++
            [⟨"Assets:Membership", POS_1, "MEMBERSHIP_MONTH"⟩,
             ⟨"Liabilities:Members:" ++ member, -POS_1, "MEMBERSHIP_MONTH"⟩] ∧
          t.postings.length = 4 ∧ t.tags = ["membership"]) ∧
    (cost ≠ txn.amount →
      (Handler.membership repl member cost).handle acc txn =
        DEFAULT_HANDLER.handle acc txn ∧
      ∀ t, (Handler.membership repl member cost).handle acc txn = some t →
        t.postings.length = 2 ∧ t.tags = []) := by
  constructor
  · intro hc t he
    simp only [Handler.handle] at he
    rw [if_neg (show ¬cost ≠ txn.amount from fun hne => hne hc)] at he
    obtain ⟨t0, h0, rfl⟩ := Option.map_eq_some'.mp he
    refine ⟨t0, h0, ?_⟩
    obtain ⟨a, -, rfl⟩ := baseHandle_some _ _ _ _ h0
    exact ⟨rfl, rfl, rfl, rfl⟩
  · intro hc
    have hd : (Handler.membership repl member cost).handle acc txn =
        DEFAULT_HANDLER.handle acc txn := by
      simp only [Handler.handle, DEFAULT_HANDLER, if_pos hc]
    refine ⟨hd, ?_⟩
    intro t he
    rw [hd] at he
    obtain ⟨a, -, rfl⟩ := baseHandle_some _ _ _ _ he
    exact ⟨rfl, rfl⟩

/-- C3 witness: fee 25.00, member alice; record A1 (amount 25.00) yields the
4-posting tagged transaction, record A2 (amount 3.00) yields the 2-posting
untagged default output. -/
theorem membership_exact_match_witness :
    ((2500 : Int) = exTxnA1.amount ∧
      exOutMember.postings.length = 4 ∧ exOutMember.tags = ["membership"]) ∧
    ((2500 : Int) ≠ exTxnA2.amount ∧
      exOutA2.postings.length = 2 ∧ exOutA2.tags = []) := by
  constructor
  · obtain ⟨t0, -, -, -, hlen, htags⟩ :=
      (membership_exact_match {} "alice" 2500 exAcc exTxnA1).1 rfl exOutMember rfl
    exact ⟨rfl, hlen, htags⟩
  · obtain ⟨-, hall⟩ :=
      (membership_exact_match {} "alice" 2500 exAcc exTxnA2).2 (by decide)
    obtain ⟨hlen, htags⟩ := hall exOutA2 rfl
    exact ⟨by decide, hlen, htags⟩

/-- C9: an extract record with an empty reference is never indexed in
the extract map, its (empty) reference is never a new identifier, and no
produced transaction carries the empty reference. -/
theorem empty_reference_never_processed (txns0 : List XlTransaction)
    (repo : Repo) (hx : repo.xlMap = loadExtractsMap txns0) :
    (loadExtractsMap txns0).lookup "" = none ∧
    "" ∉ newTxnIds repo.xlMap repo.bcIds ∧
    ∀ A M, cmdImport repo = .produced A M →
      ∀ t ∈ A ++ M, t.meta_reference ≠ "" := by
  have hnot : "" ∉ newTxnIds repo.xlMap repo.bcIds := by
    intro hmem
    obtain ⟨v, hv⟩ := lookup_isSome_of_mem_keys _ _
      (newTxnIds_subset_keys _ _ _ hmem)
    exact (loadExtractsMap_lookup_ref txns0 "" v (hx ▸ hv)).2 rfl
  refine ⟨loadExtractsMap_lookup_empty txns0, hnot, ?_⟩
  intro A M hp t ht hte
  obtain ⟨hperm, -, -⟩ := produced_refs repo txns0 hx A M hp
  have hmem : t.meta_reference ∈ newTxnIds repo.xlMap repo.bcIds :=
    hperm.mem_iff.mp (List.mem_map_of_mem _ ht)
  rw [hte] at hmem
  exact hnot hmem

/-- C9 witness: a run over an empty-reference record and record A1 — the
empty reference is unindexed and the single produced transaction does not
carry it. -/
theorem empty_reference_never_processed_witness :
    (loadExtractsMap [exTxnEmpty, exTxnA1]).lookup "" = none ∧
    "" ∉ newTxnIds exRepoC9.xlMap exRepoC9.bcIds ∧
    exOutA1.meta_reference ≠ "" := by
  obtain ⟨h1, h2, h3⟩ :=
    empty_reference_never_processed [exTxnEmpty, exTxnA1] exRepoC9 rfl
  exact ⟨h1, h2, h3 [] [exOutA1] rfl exOutA1 (by decide)⟩

/-- C10: a run that reaches the classify step and completes produces exactly
one transaction per identifier in the extract−ledger set difference: the
output count equals the size of that set and the metadata references are
pairwise distinct and exactly that set. -/
theorem one_txn_per_new_id (repo : Repo) (txns0 : List XlTransaction)
    (hx : repo.xlMap = loadExtractsMap txns0)
    (A M : List BcTransaction) (hp : cmdImport repo = .produced A M) :
    (A ++ M).length = (newTxnIds repo.xlMap repo.bcIds).length ∧
    ((A ++ M).map (fun t => t.meta_reference)).Nodup ∧
    ∀ r, r ∈ (A ++ M).map (fun t => t.meta_reference) ↔
      r ∈ newTxnIds repo.xlMap repo.bcIds := by
  obtain ⟨hperm, hnd, -⟩ := produced_refs repo txns0 hx A M hp
  refine ⟨?_, hnd, fun r => hperm.mem_iff⟩
  have hlen := hperm.length_eq
  simpa using hlen

/-- C10 witness: two new identifiers A and B, two produced transactions,
references exactly {A, B}. -/
theorem one_txn_per_new_id_witness :
    ([exOutB] ++ [exOutA1]).length =
      (newTxnIds exRepoC1.xlMap exRepoC1.bcIds).length ∧
    (([exOutB] ++ [exOutA1]).map (fun t => t.meta_reference)).Nodup ∧
    ("A" ∈ ([exOutB] ++ [exOutA1]).map (fun t => t.meta_reference) ↔
      "A" ∈ newTxnIds exRepoC1.xlMap exRepoC1.bcIds) := by
  obtain ⟨h1, h2, h3⟩ :=
    one_txn_per_new_id exRepoC1 [exTxnA1, exTxnB] rfl [exOutB] [exOutA1] rfl
  exact ⟨h1, h2, h3 "A"⟩

/-- C1 counterexample: in a concrete run, the provisional-flag transaction
(produced by the default handler) ends up in the manual bucket and NOT in
the automatic bucket, while the confirmed-flag transaction (rule-matched
handler) ends up in the automatic bucket and NOT in the manual one — the
reverse of the claimed partitioning. -/
theorem provisional_to_auto_refuted :
    cmdImport exRepoC1 = .produced [exOutB] [exOutA1] ∧
    exOutA1.flag = "?" ∧ exOutA1 ∉ [exOutB] ∧
    exOutB.flag = "!" ∧ exOutB ∉ [exOutA1] := by
  refine ⟨rfl, rfl, ?_, rfl, ?_⟩ <;> decide

/-- C1 amended: the partitioning is the reverse of the claimed one — every
generated transaction whose flag is provisional (`"?"`, the default
handler's flag) is placed in the manual-review bucket (the `_manual` file),
and every transaction whose flag is confirmed (`"!"`, a named handler's
flag) is placed in the automatic bucket (the `_auto` file). -/
theorem confirmed_to_auto_provisional_to_manual (repo : Repo)
    (A M txns : List BcTransaction)
    (hp : cmdImport repo = .produced A M)
    (hcl : classifyLoop repo.accounts repo.filters repo.xlMap
      (newTxnIds repo.xlMap repo.bcIds) [] = some txns) :
    (∀ t ∈ A, t.flag = "!") ∧ (∀ t ∈ M, t.flag ≠ "!") ∧
    ∀ t ∈ txns, (t.flag = "?" → t ∈ M ∧ t ∉ A) ∧
      (t.flag = "!" → t ∈ A ∧ t ∉ M) := by
  obtain ⟨txns1, hcl1, hA, hM⟩ := cmdImport_produced repo A M hp
  rw [hcl] at hcl1
  cases Option.some.inj hcl1
  subst hA hM
  refine ⟨?_, ?_, ?_⟩
  · intro t ht
    simpa using (List.mem_filter.mp ht).2
  · intro t ht
    have h2 := (List.mem_filter.mp ht).2
    simpa [bne] using h2
  · intro t ht
    have hsorted : t ∈ sortByDate txns := by
      unfold sortByDate
      exact (List.perm_insertionSort _ txns).mem_iff.mpr ht
    constructor
    · intro hq
      refine ⟨List.mem_filter.mpr ⟨hsorted, by rw [hq]; decide⟩, ?_⟩
      intro hA1
      have := (List.mem_filter.mp hA1).2
      rw [hq] at this
      exact absurd this (by decide)
    · intro hb
      refine ⟨List.mem_filter.mpr ⟨hsorted, by rw [hb]; decide⟩, ?_⟩
      intro hM1
      have := (List.mem_filter.mp hM1).2
      rw [hb] at this
      exact absurd this (by decide)

/-- C1 amended witness: the concrete run of `exRepoC1` — its provisional
transaction lands in the manual bucket, its confirmed one in the automatic
bucket. -/
theorem confirmed_to_auto_provisional_to_manual_witness :
    (∀ t ∈ [exOutB], t.flag = "!") ∧
    (∀ t ∈ [exOutA1], t.flag ≠ "!") ∧
    ∀ t ∈ [exOutA1, exOutB], (t.flag = "?" → t ∈ [exOutA1] ∧ t ∉ [exOutB]) ∧
      (t.flag = "!" → t ∈ [exOutB] ∧ t ∉ [exOutA1]) :=
  confirmed_to_auto_provisional_to_manual exRepoC1 [exOutB] [exOutA1]
    [exOutA1, exOutB] rfl rfl

/-- C2 counterexample: two extract records share reference "A"; the map
keeps the SECOND record, and the run's single output transaction is built
from the second record (narration "second"), not the first — refuting
"only the first encountered record is classified". -/
theorem first_encountered_classified_refuted :
    loadExtractsMap [exTxnA1, exTxnA2] = [("A", exTxnA2)] ∧
    cmdImport exRepoC2 = .produced [] [exOutA2] ∧
    exOutA2.narration = exTxnA2.message ∧
    exTxnA1.message ≠ exTxnA2.message ∧ exTxnA1 ≠ exTxnA2 := by
  refine ⟨rfl, rfl, rfl, ?_, ?_⟩ <;> decide

/-- C2 amended: for two extract records with the same non-empty reference,
only the LAST encountered record (by extract sequence order) is classified
— the extract map holds the last record with each reference and any
produced transaction for that reference is the handler output of that last
record — and the run produces at most one output transaction for that
reference. -/
theorem dedup_last_wins (txns0 : List XlTransaction) (r : String)
    (hr : r ≠ "") (repo : Repo) (hx : repo.xlMap = loadExtractsMap txns0) :
    (loadExtractsMap txns0).lookup r = lastWithRef r txns0 ∧
    ∀ A M, cmdImport repo = .produced A M →
      ((A ++ M).filter (fun t => t.meta_reference == r)).length ≤ 1 ∧
      ∀ t ∈ A ++ M, t.meta_reference = r →
        ∃ txn, lastWithRef r txns0 = some txn ∧
          (selectHandler repo.filters txn).handle repo.accounts txn = some t := by
  refine ⟨loadExtractsMap_lookup_last txns0 r hr, ?_⟩
  intro A M hp
  obtain ⟨-, hnd, hall⟩ := produced_refs repo txns0 hx A M hp
  refine ⟨length_filter_ref_le_one _ _ hnd, ?_⟩
  intro t ht htr
  obtain ⟨txn, hlk, hh⟩ := hall t ht
  rw [htr, hx, loadExtractsMap_lookup_last txns0 r hr] at hlk
  exact ⟨txn, hlk, hh⟩

/-- C2 amended witness: the duplicate-reference run — lookup of "A" is the
last record, the produced bucket holds at most one transaction for "A",
and that transaction is the default-handler output of the last record. -/
theorem dedup_last_wins_witness :
    (loadExtractsMap [exTxnA1, exTxnA2]).lookup "A" =
      lastWithRef "A" [exTxnA1, exTxnA2] ∧
    ((([] : List BcTransaction) ++ [exOutA2]).filter
      (fun t => t.meta_reference == "A")).length ≤ 1 ∧
    ∃ txn, lastWithRef "A" [exTxnA1, exTxnA2] = some txn ∧
      (selectHandler exRepoC2.filters txn).handle exRepoC2.accounts txn =
        some exOutA2 := by
  obtain ⟨h1, h2⟩ :=
    dedup_last_wins [exTxnA1, exTxnA2] "A" (by decide) exRepoC2 rfl
  obtain ⟨h3, h4⟩ := h2 [] [exOutA2] rfl
  exact ⟨h1, h3, h4 exOutA2 (by decide) rfl⟩

/-- C7 counterexample: a replacement map that overrides the reference field
— the emitted metadata still holds the ORIGINAL record's reference, not the
replaced one, while the payee does come from the replaced record. -/
theorem metadata_from_replaced_refuted :
    (Handler.default exReplC7).handle exAcc exTxnR = some exOutC7 ∧
    exOutC7.meta_reference = exTxnR.reference ∧
    (applyReplacements exReplC7 exTxnR).reference = "X" ∧
    exTxnR.reference ≠ "X" ∧
    exOutC7.payee = (applyReplacements exReplC7 exTxnR).counterparty_name := by
  exact ⟨rfl, rfl, rfl, by decide, rfl⟩

/-- C7 amended: the replacement map is applied to the record before the
transaction body is built, so every record-derived field of the emitted
transaction — date, payee, narration and the two money postings — comes
from the replaced record, EXCEPT the metadata entry, which is computed from
the original record's reference.  (Stated for the non-delegating paths: the
Membership handler's off-fee delegation discards its own replacement map.) -/
theorem replacements_applied_except_meta (h : Handler) (acc : Accounts)
    (txn : XlTransaction) (t : BcTransaction)
    (hnd : ∀ repl member cost, h = Handler.membership repl member cost →
      cost = txn.amount)
    (he : h.handle acc txn = some t) :
    t.meta_reference = txn.reference ∧
    t.date = (applyReplacements h.replacements txn).booking_date ∧
    t.payee = (applyReplacements h.replacements txn).counterparty_name ∧
    t.narration = (applyReplacements h.replacements txn).message ∧
    ∃ acctPath,
      getAccount acc (applyReplacements h.replacements txn).account =
        some acctPath ∧
      t.postings.take 2 =
        [⟨acctPath, (applyReplacements h.replacements txn).amount,
           (applyReplacements h.replacements txn).currency⟩,
         ⟨source_type (applyReplacements h.replacements txn) ++ ":" ++
           h.default_source (applyReplacements h.replacements txn),
           -(applyReplacements h.replacements txn).amount,
           (applyReplacements h.replacements txn).currency⟩] := by
  cases h with
  | default r =>
      obtain ⟨a, hg, rfl⟩ := baseHandle_some _ _ _ _ he
      exact ⟨rfl, rfl, rfl, rfl, a, hg, rfl⟩
  | categorize r cat =>
      obtain ⟨a, hg, rfl⟩ := baseHandle_some _ _ _ _ he
      exact ⟨rfl, rfl, rfl, rfl, a, hg, rfl⟩
  | membership r member cost =>
      have hc : cost = txn.amount := hnd r member cost rfl
      simp only [Handler.handle] at he
      rw [if_neg (show ¬cost ≠ txn.amount from fun hne => hne hc)] at he
      obtain ⟨t0, h0, rfl⟩ := Option.map_eq_some'.mp he
      obtain ⟨a, hg, rfl⟩ := baseHandle_some _ _ _ _ h0
      exact ⟨rfl, rfl, rfl, rfl, a, hg, rfl⟩

/-- C7 amended witness: the default handler with the reference-overriding
replacement map — metadata from the original record, payee, date and
narration from the replaced record. -/
theorem replacements_applied_except_meta_witness :
    exOutC7.meta_reference = exTxnR.reference ∧
    exOutC7.date = (applyReplacements exReplC7 exTxnR).booking_date ∧
    exOutC7.payee = (applyReplacements exReplC7 exTxnR).counterparty_name ∧
    exOutC7.narration = (applyReplacements exReplC7 exTxnR).message := by
  obtain ⟨h1, h2, h3, h4, -⟩ :=
    replacements_applied_except_meta (Handler.default exReplC7) exAcc exTxnR
      exOutC7 (fun _ _ _ hcontra => nomatch hcontra) rfl
  exact ⟨h1, h2, h3, h4⟩

end Boekhouder
